import Mathlib

/-!
Verification development for the polymarket-sniper repository.

Shallow embedding of the decision-and-execution engine:
* src/src/index.js  (second revision in the file: early-entry, checkpoint
  ladder, last-resort, shared executeTrade, stop-loss with loss report)
* src/src/arb.js    (divergence-arbitrage mode)
* src/src/config.js (default trading parameters)
* src/unnamed/part_002 (order client: placeOrder, placeGTCOrder,
  placeSellOrder)

Numeric state is modelled over ℚ (the JS code uses IEEE doubles; all the
properties proved here are about exact arithmetic relations the code
computes, so ℚ is the faithful exact model), except the sigmoid implied
probability model of arb.js which needs real exp/sqrt and is modelled
over ℝ.  JS `null` is modelled by `Option`, and JS truthiness of a
numeric variable (`if (x)`) by `truthy` below.
-/

namespace Sniper

/-- Outcome side of a binary market: tokens[0] is UP, tokens[1] is DOWN. -/
inductive Dir
  | up
  | down
deriving DecidableEq, Repr

/-- JS truthiness of a nullable number: null and 0 are falsy. -/
def truthy (x : Option ℚ) : Bool :=
  match x with
  | none => false
  | some v => v ≠ 0

-- ── config.js defaults ──────────────────────────────────────────────

/-- config.js: BET_AMOUNT_USD default 3. -/
def BET_AMOUNT_USD : ℚ := 3

/-- config.js: STOP_LOSS_CENTS default 0.30. -/
def STOP_LOSS_CENTS : ℚ := 30/100

/-- config.js: DIVERGENCE_THRESHOLD default 0.08. -/
def DIVERGENCE_THRESHOLD : ℚ := 8/100

/-- config.js: ARB_BET_AMOUNT_USD default 1. -/
def ARB_BET_AMOUNT_USD : ℚ := 1

/-- config.js: ARB_STOP_LOSS_CENTS default 0.10. -/
def ARB_STOP_LOSS_CENTS : ℚ := 10/100

/-- config.js: ARB_SLIPPAGE default 0.03. -/
def ARB_SLIPPAGE : ℚ := 3/100

/-- config.js: ARB_PROFIT_CAPTURE default 0.60. -/
def ARB_PROFIT_CAPTURE : ℚ := 60/100

/-- config.js: ARB_COOLDOWN_MS default 3000. -/
def ARB_COOLDOWN_MS : ℕ := 3000

/-- config.js: ARB_MIN_SECS_LEFT default 15. -/
def ARB_MIN_SECS_LEFT : ℕ := 15

/-- config.js: MAX_CONCURRENT_POSITIONS default 3. -/
def MAX_CONCURRENT_POSITIONS : ℕ := 3

/-- config.js: MAX_TRADES_PER_CYCLE default 5. -/
def MAX_TRADES_PER_CYCLE : ℕ := 5

-- ── Odds feed (index.js connectMarketWs, second revision) ───────────

/-- The pair of module-level variables upOdds / downOdds of index.js,
in a state where both are known (non-null). -/
structure OddsPair where
  up : ℚ
  down : ℚ
deriving DecidableEq, Repr

/-- Which of the two instrument ids a CLOB message matched:
currentMarket.tokens[0] (the UP token) or tokens[1] (the DOWN token). -/
inductive TokenSide
  | first
  | second
deriving DecidableEq, Repr

/-- One odds-feed message that matched one of the window's two tokens:
either an incremental best-bid/best-ask price_change entry, or a
last_trade_price message. -/
inductive OddsMsg
  | priceChange (side : TokenSide) (bestBid bestAsk : ℚ)
  | lastTradePrice (side : TokenSide) (price : ℚ)
deriving DecidableEq, Repr

/-- index.js connectMarketWs message handler (second revision,
src/src/index.js lines 1127-1161): a price_change entry sets the matched
side to the bid/ask midpoint and the other side to 1 − mid; a
last_trade_price sets the matched side to the traded price and the
other side to 1 − price. -/
def applyOddsMsg (st : OddsPair) (m : OddsMsg) : OddsPair :=
  match m with
  | .priceChange side bid ask =>
      let mid := (bid + ask) / 2
      match side with
      | .first => { st with up := mid, down := 1 - mid }
      | .second => { st with down := mid, up := 1 - mid }
  | .lastTradePrice side p =>
      match side with
      | .first => { st with up := p, down := 1 - p }
      | .second => { st with down := p, up := 1 - p }

/-- index.js startNewCycle per-window reset (second revision, lines
1721-1722): `upOdds = market.outcomePrices[0]; downOdds =
market.outcomePrices[1]` — the two outcome prices parsed from the Gamma
API response are copied independently, with no normalisation. -/
def resetOdds (outcomePrices : ℚ × ℚ) : OddsPair :=
  { up := outcomePrices.1, down := outcomePrices.2 }

-- ── Order client (src/unnamed/part_002, middle revision) ────────────

/-- JS Math.round: round to the nearest integer, halves toward +∞. -/
def jsRound (x : ℚ) : ℤ := ⌊x + 1/2⌋

/-- part_002 placeOrder (line 203): `Math.min(0.99, Math.max(0.01,
Math.round(price * 100) / 100))` — round to a whole cent first, then
clamp into [0.01, 0.99]. -/
def placeOrderClampedPrice (price : ℚ) : ℚ :=
  min (99/100) (max (1/100) ((jsRound (price * 100) : ℚ) / 100))

/-- part_002 placeGTCOrder (line 298): same clamped-price computation. -/
def placeGTCOrderClampedPrice (price : ℚ) : ℚ :=
  min (99/100) (max (1/100) ((jsRound (price * 100) : ℚ) / 100))

/-- part_002 placeSellOrder (line 434): same clamped-price computation. -/
def placeSellOrderClampedPrice (price : ℚ) : ℚ :=
  min (99/100) (max (1/100) ((jsRound (price * 100) : ℚ) / 100))

/-- part_002 placeSellOrder (line 437): `Math.floor(tokenAmount * 100) /
100` — the requested token amount floored to 2 decimal places, "to
avoid over-selling". -/
def sellRoundedTokens (tokenAmount : ℚ) : ℚ :=
  (⌊tokenAmount * 100⌋ : ℚ) / 100

/-- part_002 placeSellOrder (line 438): `Math.round(roundedTokens * 100)
* 10000` — the maker amount of the sell order in atomic units
(10^6 atomic units per token). -/
def sellMakerAmount (tokenAmount : ℚ) : ℤ :=
  jsRound (sellRoundedTokens tokenAmount * 100) * 10000

-- ── Position & stop loss (index.js second revision, lines 1453-1555) ─

/-- The position object created by executeTrade on a confirmed fill
(fields used by the stop-loss path). -/
structure Position where
  direction : Dir
  entryPrice : ℚ
  tokenAmount : ℚ
deriving DecidableEq, Repr

/-- Module-level state read and written by checkStopLoss. -/
structure SLState where
  position : Option Position
  stopLossFired : Bool
  isExecutingStopLoss : Bool
deriving DecidableEq, Repr

/-- The values of the module-level feed variables observed by one
checkStopLoss invocation. -/
structure SLObs where
  marketPresent : Bool
  upOdds : Option ℚ
  downOdds : Option ℚ
  btcOpenPrice : Option ℚ
  btcCurrentPrice : Option ℚ
deriving DecidableEq, Repr

/-- index.js line 1484: stop-loss slippage schedule. -/
def SL_SLIPPAGE_STEPS : List ℚ := [2/100, 5/100, 10/100, 15/100]

/-- The current market price of the held token (line 1458). -/
def slCurrentPrice (d : Dir) (up down : ℚ) : ℚ :=
  match d with
  | .up => up
  | .down => down

/-- index.js lines 1464-1472: BTC crossed to the wrong side of the
price-to-beat (checked only when both prices are truthy). -/
def slPriceTriggered (d : Dir) (btcOpen btcCur : Option ℚ) : Bool :=
  if truthy btcOpen && truthy btcCur then
    match d, btcOpen, btcCur with
    | .up, some op, some cur => decide (cur < op)
    | .down, some op, some cur => decide (op < cur)
    | _, _, _ => false
  else false

/-- The full trigger condition of checkStopLoss (lines 1454-1474): the
guards pass and either the held side's odds dropped by at least
STOP_LOSS_CENTS from entry, or BTC crossed to the wrong side. -/
def slWouldFire (st : SLState) (o : SLObs) : Bool :=
  match st.position, o.upOdds, o.downOdds with
  | some p, some up, some down =>
      o.marketPresent && !st.stopLossFired && !st.isExecutingStopLoss &&
      (decide (STOP_LOSS_CENTS ≤ p.entryPrice - slCurrentPrice p.direction up down)
        || slPriceTriggered p.direction o.btcOpenPrice o.btcCurrentPrice)
  | _, _, _ => false

/-- The outcome of one checkStopLoss invocation. `exited` records that
the handler reached the `process.exit(1)` after a successful sale
(lines 1518-1535, "Shutting down after first loss."). -/
structure SLResult where
  position : Option Position
  stopLossFired : Bool
  isExecutingStopLoss : Bool
  exited : Bool
deriving DecidableEq, Repr

/-- index.js checkStopLoss (second revision, lines 1453-1555),
parameterized by the success of each sell attempt (an exception counts
as a failed attempt).  On trigger the handler sets both guards, runs up
to 4 sell attempts, exits the process at the first success, and clears
both guards if every attempt fails (lines 1548-1553). -/
def checkStopLoss (st : SLState) (o : SLObs) (attemptSucceeds : ℕ → Bool) :
    SLResult :=
  if slWouldFire st o then
    if (List.range SL_SLIPPAGE_STEPS.length).any attemptSucceeds then
      { position := st.position, stopLossFired := true,
        isExecutingStopLoss := true, exited := true }
    else
      { position := st.position, stopLossFired := false,
        isExecutingStopLoss := false, exited := false }
  else
    { position := st.position, stopLossFired := st.stopLossFired,
      isExecutingStopLoss := st.isExecutingStopLoss, exited := false }

-- ── Cycle finalization (index.js second revision, lines 982-1044) ───

/-- The betPlaced record of cycleData (fields used at finalization). -/
structure BetPlaced where
  direction : Dir
  success : Bool
deriving DecidableEq, Repr

/-- index.js lines 994-998: the window's actual outcome, known only
when both the price to beat and the final BTC price are recorded:
UP iff the final price is at or above the price to beat. -/
def actualOutcome (priceToBeat finalBtcPrice : Option ℚ) : Option Dir :=
  match priceToBeat, finalBtcPrice with
  | some p, some f => some (if p ≤ f then Dir.up else Dir.down)
  | _, _ => none

/-- index.js finalizeCycleData lines 1017-1041: after recording the
cycle, if a successfully placed bet lost the window, print the loss
report and `process.exit(1)` ("Shutting down after first loss."). -/
def finalizeShutsDown (bet : Option BetPlaced)
    (priceToBeat finalBtcPrice : Option ℚ) : Bool :=
  match bet, actualOutcome priceToBeat finalBtcPrice with
  | some bp, some oc => bp.success && decide (bp.direction ≠ oc)
  | _, _ => false

-- ── Entry execution retry loop (index.js executeTrade, 1336-1450) ───

/-- What one retry attempt observes at attempt time: the live time
remaining and the live odds of the chosen side, plus whether the order
fills. -/
structure BuyAttemptObs where
  timeLeft : ℕ
  liveOdds : ℚ
  fillSuccess : Bool

/-- An externally visible event of the retry loop: an order attempt at
a bid price, or an inter-attempt sleep. -/
inductive TradeEv
  | attempt (idx : ℕ) (buyPrice : ℚ)
  | wait (ms : ℕ)
deriving DecidableEq, Repr

/-- index.js line 1343: escalating entry slippage schedule. -/
def SLIPPAGE_STEPS : List ℚ := [3/100, 6/100, 10/100, 14/100, 14/100]

/-- index.js line 1344: delay between entry attempts (ms). -/
def RETRY_DELAY : ℕ := 1500

/-- index.js line 1346: `Math.max(secsAtEntry - 17, 3)` — the retry
cutoff, 17 seconds after the decision time, floored at 3 seconds
(the first revision's checkSnipe, line 305, computes the same with the
checkpoint time cp.at as the base). -/
def retryCutoff (secsAtEntry : ℕ) : ℕ := max (secsAtEntry - 17) 3

/-- The retry loop body of executeTrade (lines 1348-1426): before each
attempt the live time remaining is compared to the cutoff; the bid is
the live odds plus the current slippage step, capped at 0.99; a fill
stops the loop; a failed attempt that is not the last is followed by a
RETRY_DELAY sleep. -/
def tradeLoop (cutoff : ℕ) (obs : ℕ → BuyAttemptObs) :
    ℕ → List ℚ → List TradeEv × Option ℚ
  | _, [] => ([], none)
  | idx, step :: rest =>
      let o := obs idx
      if o.timeLeft < cutoff then ([], none)
      else
        let buyPrice := min (o.liveOdds + step) (99/100)
        if o.fillSuccess then ([TradeEv.attempt idx buyPrice], some buyPrice)
        else
          let next := tradeLoop cutoff obs (idx + 1) rest
          (TradeEv.attempt idx buyPrice ::
            ((if rest.isEmpty then [] else [TradeEv.wait RETRY_DELAY]) ++ next.1),
           next.2)

/-- index.js executeTrade (second revision, lines 1336-1450) restricted
to its retry loop: runs tradeLoop over the 5 slippage steps with cutoff
retryCutoff secsAtEntry, and returns the events plus the fill price, if
any. -/
def executeTrade (secsAtEntry : ℕ) (obs : ℕ → BuyAttemptObs) :
    List TradeEv × Option ℚ :=
  tradeLoop (retryCutoff secsAtEntry) obs 0 SLIPPAGE_STEPS

/-- Recognizer for attempt events. -/
def TradeEv.isAttempt : TradeEv → Bool
  | .attempt _ _ => true
  | .wait _ => false

-- ── Checkpoint ladder & last resort (index.js 1231-1333) ────────────

/-- One checkpoint of the ladder: a time-remaining threshold (the `at`
field) and a minimum leader-odds bar. -/
structure Checkpoint where
  atSecs : ℕ
  minOdds : ℚ
deriving DecidableEq, Repr

/-- index.js lines 1277-1281: the checkpoint ladder
T-30 → 90%+, T-20 → 87%+, T-10 → 85%+. -/
def CHECKPOINTS : List Checkpoint :=
  [⟨30, 9/10⟩, ⟨20, 87/100⟩, ⟨10, 85/100⟩]

/-- One entry of the oddsHistory ring (recordOddsTick, lines
1180-1189); the btcPrice field is not read by the signals. -/
structure OddsTick where
  upOdds : ℚ
  downOdds : ℚ
deriving DecidableEq, Repr

/-- Module-level state read and written by checkSnipe / checkLastResort
/ executeTrade. -/
structure SnipeState where
  hasBet : Bool
  isExecutingTrade : Bool
  nextCheckpointIdx : ℕ
deriving DecidableEq, Repr

/-- The feed values one checkSnipe tick observes. -/
structure SnipeObs where
  marketPresent : Bool
  secsLeft : ℕ
  upOdds : Option ℚ
  downOdds : Option ℚ
  btcOpenPrice : Option ℚ
  btcCurrentPrice : Option ℚ
  oddsHistory : List OddsTick
deriving DecidableEq, Repr

/-- checkLastResort signal A (lines 1242-1250): BTC at least $15 from
the open price; buy the side the move favors (UP iff the move is
non-negative). -/
def lastResortSignalA (o : SnipeObs) : Option Dir :=
  match o.btcOpenPrice, o.btcCurrentPrice with
  | some op, some cur =>
      if 15 ≤ |cur - op| then some (if 0 ≤ cur - op then Dir.up else Dir.down)
      else none
  | _, _ => none

/-- checkLastResort signal B (lines 1252-1265): across the last 3 odds
history samples, one side's probability rose by at least 0.15 (UP
checked first). -/
def lastResortSignalB (o : SnipeObs) : Option Dir :=
  if 3 ≤ o.oddsHistory.length then
    let recent := o.oddsHistory.drop (o.oddsHistory.length - 3)
    match recent.head?, recent.getLast? with
    | some first, some last =>
        if 15/100 ≤ last.upOdds - first.upOdds then some Dir.up
        else if 15/100 ≤ last.downOdds - first.downOdds then some Dir.down
        else none
    | _, _ => none
  else none

/-- index.js checkLastResort (lines 1231-1273): guarded by market
present, no bet, no trade in flight, both odds known, both BTC prices
truthy, and 1 ≤ secsLeft ≤ 3; buys per signal A, else per signal B.
It does not consult nextCheckpointIdx. -/
def checkLastResort (st : SnipeState) (o : SnipeObs) : Option Dir :=
  if !o.marketPresent || st.hasBet || st.isExecutingTrade then none
  else
    match o.upOdds, o.downOdds with
    | some _, some _ =>
        if !(truthy o.btcOpenPrice && truthy o.btcCurrentPrice) then none
        else if 3 < o.secsLeft ∨ o.secsLeft < 1 then none
        else
          match lastResortSignalA o with
          | some d => some d
          | none => lastResortSignalB o
    | _, _ => none

/-- checkSnipe's $10 BTC confirmation filter (lines 1319-1328): skip
the checkpoint fire when both BTC prices are truthy and the current
price is less than $10 from the open price. -/
def btcConfirmSkip (btcOpen btcCur : Option ℚ) : Bool :=
  if truthy btcOpen && truthy btcCur then
    match btcOpen, btcCur with
    | some op, some cur => decide (|cur - op| < 10)
    | _, _ => false
  else false

/-- What one checkSnipe tick did: consumed the checkpoint at an index
(firing a buy or not), or fired the last-resort path. -/
inductive SnipeEvent
  | consumed (idx : ℕ) (fired : Option Dir)
  | lastResort (d : Dir)
deriving DecidableEq, Repr

/-- index.js checkSnipe (second revision, lines 1284-1333): guards,
last-resort dispatch in the final 3 seconds, then checkpoint
consumption.  The checkpoint index advances before the odds bar and the
BTC confirmation filter are evaluated, so a reached checkpoint is
consumed whether or not it fires.  A fire calls executeTrade, which
synchronously sets isExecutingTrade and hasBet (lines 1337-1338). -/
def checkSnipe (st : SnipeState) (o : SnipeObs) :
    SnipeState × Option SnipeEvent :=
  if !o.marketPresent || st.hasBet || st.isExecutingTrade then (st, none)
  else
    match o.upOdds, o.downOdds with
    | some up, some down =>
        if o.secsLeft ≤ 3 ∧ 1 ≤ o.secsLeft then
          match checkLastResort st o with
          | some d =>
              ({ st with hasBet := true, isExecutingTrade := true },
               some (.lastResort d))
          | none => (st, none)
        else
          match CHECKPOINTS[st.nextCheckpointIdx]? with
          | none => (st, none)
          | some cp =>
              if cp.atSecs < o.secsLeft ∨ o.secsLeft < 3 then (st, none)
              else
                if max up down < cp.minOdds then
                  ({ st with nextCheckpointIdx := st.nextCheckpointIdx + 1 },
                   some (.consumed st.nextCheckpointIdx none))
                else if btcConfirmSkip o.btcOpenPrice o.btcCurrentPrice then
                  ({ st with nextCheckpointIdx := st.nextCheckpointIdx + 1 },
                   some (.consumed st.nextCheckpointIdx none))
                else
                  ({ hasBet := true, isExecutingTrade := true,
                     nextCheckpointIdx := st.nextCheckpointIdx + 1 },
                   some (.consumed st.nextCheckpointIdx
                     (some (if down ≤ up then Dir.up else Dir.down))))
    | _, _ => (st, none)

/-- A sequence of checkSnipe ticks over one window, collecting the
emitted events. -/
def runSnipe (st : SnipeState) : List SnipeObs → SnipeState × List SnipeEvent
  | [] => (st, [])
  | o :: os =>
      ((runSnipe (checkSnipe st o).1 os).1,
        (checkSnipe st o).2.toList ++ (runSnipe (checkSnipe st o).1 os).2)

/-- The checkpoint indices consumed in a list of events, in order. -/
def consumedIdxs (evs : List SnipeEvent) : List ℕ :=
  evs.filterMap fun e =>
    match e with
    | .consumed i _ => some i
    | .lastResort _ => none

-- ── Divergence arbitrage (src/src/arb.js) ───────────────────────────

/-- One active arb position (fields set in executeArbTrade, lines
251-263). -/
structure ArbPos where
  direction : Dir
  entryPrice : ℚ
  targetPrice : ℚ
  stopPrice : ℚ
  tokenAmount : ℚ
deriving DecidableEq, Repr

/-- Module-level arb state (arb.js lines 34-42). -/
structure ArbState where
  positions : List ArbPos
  tradesThisCycle : ℕ
  lastTradeTime : ℕ
  isExecutingTrade : Bool
deriving DecidableEq, Repr

/-- What one evaluateArbitrage call observes.  impliedUp / impliedDown
are the outputs of calculateImpliedProbability applied to binanceBtcMid,
btcOpenPrice and secsLeft (the invariants below do not depend on how
they are computed, so they are inputs here). -/
structure ArbInput where
  marketPresent : Bool
  btcOpenPrice : Option ℚ
  binanceBtcMid : Option ℚ
  upBestAsk : Option ℚ
  downBestAsk : Option ℚ
  impliedUp : ℚ
  impliedDown : ℚ
  now : ℕ
  secsLeft : ℕ
  fillSuccess : Bool
deriving DecidableEq, Repr

/-- arb.js executeArbTrade (lines 225-292): stamps lastTradeTime
immediately; on a filled order computes buy/target/stop prices from the
ask, the slippage and the divergence, increments tradesThisCycle and
appends the new position. -/
def executeArbTrade (s : ArbState) (d : Dir) (askPrice divergence : ℚ)
    (now : ℕ) (fillSuccess : Bool) : ArbState :=
  let s1 := { s with lastTradeTime := now }
  if fillSuccess then
    let buyPrice := min (askPrice + ARB_SLIPPAGE) (99/100)
    let targetPrice := min (buyPrice + divergence * ARB_PROFIT_CAPTURE) (99/100)
    let stopPrice := max (buyPrice - ARB_STOP_LOSS_CENTS) (1/100)
    { s1 with
      tradesThisCycle := s1.tradesThisCycle + 1,
      positions := s1.positions ++
        [{ direction := d, entryPrice := buyPrice, targetPrice := targetPrice,
           stopPrice := stopPrice, tokenAmount := ARB_BET_AMOUNT_USD / buyPrice }] }
  else s1

/-- The DOWN-side check of evaluateArbitrage (lines 212-221). -/
def arbTryDown (s : ArbState) (i : ArbInput) : ArbState :=
  match i.downBestAsk with
  | some ask =>
      if DIVERGENCE_THRESHOLD < i.impliedDown - ask ∧
          ¬ s.positions.any (fun p => p.direction = Dir.down) then
        executeArbTrade s Dir.down ask (i.impliedDown - ask) i.now i.fillSuccess
      else s
  | none => s

/-- arb.js evaluateArbitrage (lines 180-222): data guards, the
in-flight guard, the position / trade-count / cooldown / time-window
guards, then the UP-side divergence check followed by the DOWN side. -/
def evaluateArbitrage (s : ArbState) (i : ArbInput) : ArbState :=
  if !i.marketPresent || !(truthy i.btcOpenPrice) || !(truthy i.binanceBtcMid) then s
  else if i.upBestAsk = none ∧ i.downBestAsk = none then s
  else if s.isExecutingTrade then s
  else if MAX_CONCURRENT_POSITIONS ≤ s.positions.length then s
  else if MAX_TRADES_PER_CYCLE ≤ s.tradesThisCycle then s
  else if (i.now : ℤ) - (s.lastTradeTime : ℤ) < (ARB_COOLDOWN_MS : ℤ) then s
  else if i.secsLeft < ARB_MIN_SECS_LEFT ∨ 280 < i.secsLeft then s
  else
    match i.upBestAsk with
    | some ask =>
        if DIVERGENCE_THRESHOLD < i.impliedUp - ask ∧
            ¬ s.positions.any (fun p => p.direction = Dir.up) then
          executeArbTrade s Dir.up ask (i.impliedUp - ask) i.now i.fillSuccess
        else arbTryDown s i
    | none => arbTryDown s i

/-- arb.js executeExit (lines 356-401): on a successful sell the
position at the given index is removed; otherwise the list is kept and
the exit is retried later. -/
def executeExit (s : ArbState) (idx : ℕ) (sellSuccess : Bool) : ArbState :=
  if sellSuccess then { s with positions := s.positions.eraseIdx idx } else s

/-- arb.js startNewCycle reset (lines 524-536). -/
def arbReset (_s : ArbState) : ArbState :=
  { positions := [], tradesThisCycle := 0, lastTradeTime := 0,
    isExecutingTrade := false }

/-- The initial arb state (module initializers, lines 34-42). -/
def arbInit : ArbState :=
  { positions := [], tradesThisCycle := 0, lastTradeTime := 0,
    isExecutingTrade := false }

/-- The states the arb engine can reach: from the initial state via
evaluateArbitrage calls, exit executions and cycle resets. -/
inductive ArbReachable : ArbState → Prop
  | init : ArbReachable arbInit
  | eval {s : ArbState} (i : ArbInput) :
      ArbReachable s → ArbReachable (evaluateArbitrage s i)
  | exitStep {s : ArbState} (idx : ℕ) (ok : Bool) :
      ArbReachable s → ArbReachable (executeExit s idx ok)
  | reset {s : ArbState} :
      ArbReachable s → ArbReachable (arbReset s)

/-- The safety invariant claimed for arbitrage mode: position count at
most MAX_CONCURRENT_POSITIONS, at most one open position per side, and
at most MAX_TRADES_PER_CYCLE entries per window. -/
def ArbInv (s : ArbState) : Prop :=
  s.positions.length ≤ MAX_CONCURRENT_POSITIONS ∧
  s.positions.countP (fun p => p.direction = Dir.up) ≤ 1 ∧
  s.positions.countP (fun p => p.direction = Dir.down) ≤ 1 ∧
  s.tradesThisCycle ≤ MAX_TRADES_PER_CYCLE

-- ── Sigmoid implied probability model (arb.js 169-177) ──────────────

/-- config.js: MODEL_K_BASE default 4.76. -/
def MODEL_K_BASE : ℝ := 4.76

/-- arb.js calculateImpliedProbability (lines 169-177): percentage
change of the Binance price from the open price, passed through a
logistic whose steepness is MODEL_K_BASE * sqrt(300 / max(secsLeft,
10)).  Falsy (zero) prices yield the uninformative (0.5, 0.5). -/
noncomputable def calculateImpliedProbability
    (binancePrice openPrice secsLeft : ℝ) : ℝ × ℝ :=
  if binancePrice = 0 ∨ openPrice = 0 then (1/2, 1/2)
  else
    let pctChange := (binancePrice - openPrice) / openPrice * 100
    let k := MODEL_K_BASE * Real.sqrt (300 / max secsLeft 10)
    let probUp := 1 / (1 + Real.exp (-k * pctChange))
    (probUp, 1 - probUp)

-- ── Helper lemmas for the clamped price ─────────────────────────────

theorem clamp_mem (price : ℚ) :
    1/100 ≤ min (99/100) (max (1/100) ((jsRound (price * 100) : ℚ) / 100)) ∧
    min (99/100) (max (1/100) ((jsRound (price * 100) : ℚ) / 100)) ≤ 99/100 ∧
    ∃ n : ℤ, min (99/100) (max (1/100) ((jsRound (price * 100) : ℚ) / 100)) = (n : ℚ) / 100 ∧
      1 ≤ n ∧ n ≤ 99 := by
  constructor
  · exact le_min (by norm_num) (le_max_left _ _)
  constructor
  · exact min_le_left _ _
  · refine ⟨min 99 (max 1 (jsRound (price * 100))), ?_, ?_, ?_⟩
    · push_cast
      rw [max_div_div_right (by norm_num : (0:ℚ) ≤ 100), min_div_div_right (by norm_num : (0:ℚ) ≤ 100)]
    · exact le_min (by norm_num) (le_max_left _ _)
    · exact min_le_left _ _

-- ── C3: odds sum-to-one invariant ───────────────────────────────────

/-- Claim C3 counterexample: immediately after the per-window reset the
odds pair is the two API outcome prices verbatim; for the concrete
outcomePrices (0.6, 0.3) the pair does not sum to 1, so the invariant
does not hold at all times. -/
theorem resetOdds_breaks_sum :
    (resetOdds (6/10, 3/10)).up + (resetOdds (6/10, 3/10)).down ≠ 1 := by
  norm_num [resetOdds]

/-- Claim C3 (amended): every odds-feed message that matches one of the
window's two tokens sets the two sides to complementary values, so
after any such message up + down = 1 exactly; the per-window reset
copies the API outcome prices verbatim, so right after the reset the
invariant holds exactly when those prices sum to 1. -/
theorem odds_sum_invariant :
    (∀ (st : OddsPair) (m : OddsMsg),
      (applyOddsMsg st m).up + (applyOddsMsg st m).down = 1) ∧
    (∀ p : ℚ × ℚ, p.1 + p.2 = 1 →
      (resetOdds p).up + (resetOdds p).down = 1) := by
  constructor
  · intro st m
    cases m with
    | priceChange side bid ask => cases side <;> simp [applyOddsMsg]
    | lastTradePrice side p => cases side <;> simp [applyOddsMsg]
  · intro p h
    simpa [resetOdds] using h

/-- Witness for odds_sum_invariant at concrete inputs. -/
theorem odds_sum_invariant_witness :
    ((applyOddsMsg ⟨0, 0⟩ (.priceChange .first (40/100) (50/100))).up +
      (applyOddsMsg ⟨0, 0⟩ (.priceChange .first (40/100) (50/100))).down = 1) ∧
    ((1:ℚ)/2 + 1/2 = 1) ∧
    ((resetOdds (1/2, 1/2)).up + (resetOdds (1/2, 1/2)).down = 1) :=
  ⟨odds_sum_invariant.1 _ _, by norm_num,
    odds_sum_invariant.2 (1/2, 1/2) (by norm_num)⟩

-- ── C9: submitted limit prices lie in [0.01, 0.99] ──────────────────

/-- Claim C9: in each of placeOrder, placeGTCOrder and placeSellOrder
the limit price used to build the submitted order is the input price
rounded to a whole cent and clamped into [0.01, 0.99]; for every input
it lies in [0.01, 0.99] and is a whole number of cents between 1 and
99. -/
theorem order_limit_price_in_range (price : ℚ) :
    (1/100 ≤ placeOrderClampedPrice price ∧
      placeOrderClampedPrice price ≤ 99/100 ∧
      ∃ n : ℤ, placeOrderClampedPrice price = (n : ℚ) / 100 ∧ 1 ≤ n ∧ n ≤ 99) ∧
    (1/100 ≤ placeGTCOrderClampedPrice price ∧
      placeGTCOrderClampedPrice price ≤ 99/100 ∧
      ∃ n : ℤ, placeGTCOrderClampedPrice price = (n : ℚ) / 100 ∧ 1 ≤ n ∧ n ≤ 99) ∧
    (1/100 ≤ placeSellOrderClampedPrice price ∧
      placeSellOrderClampedPrice price ≤ 99/100 ∧
      ∃ n : ℤ, placeSellOrderClampedPrice price = (n : ℚ) / 100 ∧ 1 ≤ n ∧ n ≤ 99) := by
  refine ⟨⟨?_, ?_, ?_⟩, ⟨?_, ?_, ?_⟩, ⟨?_, ?_, ?_⟩⟩ <;>
    first
      | exact (clamp_mem price).1
      | exact (clamp_mem price).2.1
      | exact (clamp_mem price).2.2

-- ── C10: placeSellOrder never offers more tokens than requested ─────

/-- Claim C10: placeSellOrder floors the requested token amount to 2
decimal places; for every non-negative request the floored amount is
non-negative, at most the request, and the submitted maker amount is
exactly the floored amount in atomic units (10^6 per token). -/
theorem placeSellOrder_never_oversells (t : ℚ) (ht : 0 ≤ t) :
    sellRoundedTokens t ≤ t ∧ 0 ≤ sellRoundedTokens t ∧
    (sellMakerAmount t : ℚ) = sellRoundedTokens t * 1000000 := by
  refine ⟨?_, ?_, ?_⟩
  · rw [sellRoundedTokens, div_le_iff₀ (by norm_num : (0:ℚ) < 100)]
    exact Int.floor_le _
  · rw [sellRoundedTokens]
    positivity
  · rw [sellMakerAmount, sellRoundedTokens, jsRound]
    rw [div_mul_cancel₀ _ (by norm_num : (100:ℚ) ≠ 0)]
    rw [Int.floor_int_add]
    norm_num
    ring

/-- Witness for placeSellOrder_never_oversells at t = 12.3456. -/
theorem placeSellOrder_never_oversells_witness :
    (0:ℚ) ≤ 123456/10000 ∧
    (sellRoundedTokens (123456/10000) ≤ 123456/10000 ∧
      0 ≤ sellRoundedTokens (123456/10000) ∧
      (sellMakerAmount (123456/10000) : ℚ) =
        sellRoundedTokens (123456/10000) * 1000000) :=
  ⟨by norm_num, placeSellOrder_never_oversells (123456/10000) (by norm_num)⟩

-- ── C1: a failed stop-loss exit is re-armed, never suppressed ───────

/-- Claim C1: if the stop-loss path fires and every sell attempt fails,
then before the handler returns both guards (stopLossFired and
isExecutingStopLoss) are cleared, the position is unchanged, the
process did not exit, and the trigger condition holds again for the
resulting state, so the next tick re-evaluates the stop-loss. -/
theorem stopLoss_allFail_rearms (st : SLState) (o : SLObs) (att : ℕ → Bool)
    (hfire : slWouldFire st o = true) (hfail : ∀ i, att i = false) :
    (checkStopLoss st o att).stopLossFired = false ∧
    (checkStopLoss st o att).isExecutingStopLoss = false ∧
    (checkStopLoss st o att).position = st.position ∧
    (checkStopLoss st o att).exited = false ∧
    slWouldFire
      { position := (checkStopLoss st o att).position,
        stopLossFired := (checkStopLoss st o att).stopLossFired,
        isExecutingStopLoss := (checkStopLoss st o att).isExecutingStopLoss }
      o = true := by
  obtain ⟨pos, f, e⟩ := st
  have hany : (List.range SL_SLIPPAGE_STEPS.length).any att = false := by
    simp [List.any_eq_true, hfail]
  have hfe : f = false ∧ e = false := by
    rcases pos with _ | p
    · simp [slWouldFire] at hfire
    · rcases hu : o.upOdds with _ | u
      · simp [slWouldFire, hu] at hfire
      · rcases hd : o.downOdds with _ | v
        · simp [slWouldFire, hu, hd] at hfire
        · simp only [slWouldFire, hu, hd, Bool.and_eq_true,
            Bool.not_eq_true'] at hfire
          exact ⟨hfire.1.1.2, hfire.1.2⟩
  obtain ⟨hf, he⟩ := hfe
  subst hf
  subst he
  have hany2 : ¬ ((List.range SL_SLIPPAGE_STEPS.length).any att = true) := by
    rw [hany]
    simp
  rw [checkStopLoss, if_pos hfire, if_neg hany2]
  exact ⟨rfl, rfl, rfl, rfl, hfire⟩

/-- Witness for stopLoss_allFail_rearms: Scenario D, entry at 0.70,
odds fallen to 0.39 (drop 0.31 ≥ 0.30), all four sell attempts fail. -/
theorem stopLoss_allFail_rearms_witness :
    slWouldFire ⟨some ⟨.up, 70/100, 4⟩, false, false⟩
      ⟨true, some (39/100), some (61/100), none, none⟩ = true ∧
    ((fun _ : ℕ => false) 0 = false) ∧
    ((checkStopLoss ⟨some ⟨.up, 70/100, 4⟩, false, false⟩
        ⟨true, some (39/100), some (61/100), none, none⟩
        (fun _ => false)).stopLossFired = false ∧
      (checkStopLoss ⟨some ⟨.up, 70/100, 4⟩, false, false⟩
        ⟨true, some (39/100), some (61/100), none, none⟩
        (fun _ => false)).isExecutingStopLoss = false ∧
      (checkStopLoss ⟨some ⟨.up, 70/100, 4⟩, false, false⟩
        ⟨true, some (39/100), some (61/100), none, none⟩
        (fun _ => false)).position =
        (⟨some ⟨.up, 70/100, 4⟩, false, false⟩ : SLState).position ∧
      (checkStopLoss ⟨some ⟨.up, 70/100, 4⟩, false, false⟩
        ⟨true, some (39/100), some (61/100), none, none⟩
        (fun _ => false)).exited = false ∧
      slWouldFire
        { position := (checkStopLoss ⟨some ⟨.up, 70/100, 4⟩, false, false⟩
            ⟨true, some (39/100), some (61/100), none, none⟩
            (fun _ => false)).position,
          stopLossFired := (checkStopLoss ⟨some ⟨.up, 70/100, 4⟩, false, false⟩
            ⟨true, some (39/100), some (61/100), none, none⟩
            (fun _ => false)).stopLossFired,
          isExecutingStopLoss :=
            (checkStopLoss ⟨some ⟨.up, 70/100, 4⟩, false, false⟩
              ⟨true, some (39/100), some (61/100), none, none⟩
              (fun _ => false)).isExecutingStopLoss }
        ⟨true, some (39/100), some (61/100), none, none⟩ = true) :=
  ⟨by norm_num [slWouldFire, slCurrentPrice, slPriceTriggered, truthy,
      STOP_LOSS_CENTS], rfl,
    stopLoss_allFail_rearms _ _ _
      (by norm_num [slWouldFire, slCurrentPrice, slPriceTriggered, truthy,
        STOP_LOSS_CENTS])
      (fun _ => rfl)⟩

-- ── C5: terminations of the engine ──────────────────────────────────

/-- Claim C5 counterexample: a completed stop-loss sale reaches
process.exit(1), and a finalized window whose successfully placed bet
lost also reaches process.exit(1) — so not every non-startup failure
path keeps the process running into the next window. -/
theorem completed_sale_and_lost_bet_exit :
    (checkStopLoss ⟨some ⟨.up, 60/100, 5⟩, false, false⟩
      ⟨true, some (25/100), some (75/100), none, none⟩
      (fun _ => true)).exited = true ∧
    finalizeShutsDown (some ⟨.up, true⟩) (some 100000) (some 99990) = true := by
  constructor
  · have hfire : slWouldFire ⟨some ⟨.up, 60/100, 5⟩, false, false⟩
        ⟨true, some (25/100), some (75/100), none, none⟩ = true := by
      norm_num [slWouldFire, slCurrentPrice, slPriceTriggered, truthy,
        STOP_LOSS_CENTS]
    have hany : ((List.range SL_SLIPPAGE_STEPS.length).any
        fun _ : ℕ => true) = true := by decide
    rw [checkStopLoss, if_pos hfire, if_pos hany]
  · have hne : Dir.up ≠ Dir.down := fun h => Dir.noConfusion h
    norm_num [finalizeShutsDown, actualOutcome, hne]

/-- Claim C5 (amended): a stop-loss whose every sell attempt fails
never terminates the process; the stop-loss handler terminates exactly
after a triggered, completed sale; finalizeCycleData terminates exactly
when a successfully placed bet is on the losing side of a decided
window; in particular a bet that never filled never terminates there. -/
theorem engine_termination :
    (∀ (st : SLState) (o : SLObs) (att : ℕ → Bool),
      (∀ i, att i = false) → (checkStopLoss st o att).exited = false) ∧
    (∀ (st : SLState) (o : SLObs) (att : ℕ → Bool),
      (checkStopLoss st o att).exited = true →
      slWouldFire st o = true ∧
        ∃ i, i < SL_SLIPPAGE_STEPS.length ∧ att i = true) ∧
    (∀ (bet : Option BetPlaced) (p f : Option ℚ),
      finalizeShutsDown bet p f = true →
      ∃ bp oc, bet = some bp ∧ bp.success = true ∧
        actualOutcome p f = some oc ∧ bp.direction ≠ oc) ∧
    (∀ (bet : Option BetPlaced) (p f : Option ℚ),
      (∀ bp, bet = some bp → bp.success = false) →
      finalizeShutsDown bet p f = false) := by
  refine ⟨?_, ?_, ?_, ?_⟩
  · intro st o att hfail
    have hany : (List.range SL_SLIPPAGE_STEPS.length).any att = false := by
      simp [List.any_eq_true, hfail]
    by_cases hfire : slWouldFire st o = true
    · simp [checkStopLoss, hfire, hany]
    · simp [checkStopLoss, hfire]
  · intro st o att hex
    by_cases hfire : slWouldFire st o = true
    · refine ⟨hfire, ?_⟩
      cases hany : (List.range SL_SLIPPAGE_STEPS.length).any att with
      | false =>
          have hne : ¬ ((List.range SL_SLIPPAGE_STEPS.length).any att = true) := by
            rw [hany]
            simp
          rw [checkStopLoss, if_pos hfire, if_neg hne] at hex
          simp at hex
      | true =>
          obtain ⟨i, hi, ha⟩ := List.any_eq_true.mp hany
          exact ⟨i, List.mem_range.mp hi, ha⟩
    · simp [checkStopLoss, hfire] at hex
  · intro bet p f h
    rcases bet with _ | bp
    · rcases ho : actualOutcome p f with _ | oc <;>
        simp only [finalizeShutsDown, ho] at h <;> simp at h
    · rcases ho : actualOutcome p f with _ | oc
      · simp only [finalizeShutsDown, ho] at h
        simp at h
      · simp only [finalizeShutsDown, ho, Bool.and_eq_true,
          decide_eq_true_eq] at h
        exact ⟨bp, oc, rfl, h.1, rfl, h.2⟩
  · intro bet p f h
    rcases bet with _ | bp
    · rcases ho : actualOutcome p f with _ | oc <;>
        simp [finalizeShutsDown, ho]
    · have hs : bp.success = false := h bp rfl
      rcases ho : actualOutcome p f with _ | oc <;>
        simp [finalizeShutsDown, ho, hs]

/-- Witness for engine_termination: all-failing attempts and an
unplaced bet do not terminate. -/
theorem engine_termination_witness :
    ((fun _ : ℕ => false) 0 = false) ∧
    (checkStopLoss ⟨none, false, false⟩ ⟨false, none, none, none, none⟩
      (fun _ => false)).exited = false ∧
    ((∀ bp, (none : Option BetPlaced) = some bp → bp.success = false) ∧
      finalizeShutsDown none (some 100000) (some 99990) = false) :=
  ⟨rfl, engine_termination.1 _ _ _ (fun _ => rfl),
    ⟨fun _ h => Option.noConfusion h,
      engine_termination.2.2.2 _ _ _ (fun _ h => Option.noConfusion h)⟩⟩

-- ── C7: entry retry discipline ──────────────────────────────────────

theorem tradeLoop_mem_attempt (cutoff : ℕ) (obs : ℕ → BuyAttemptObs) :
    ∀ (steps : List ℚ) (start idx : ℕ) (p : ℚ),
      TradeEv.attempt idx p ∈ (tradeLoop cutoff obs start steps).1 →
      start ≤ idx ∧ idx < start + steps.length ∧
      cutoff ≤ (obs idx).timeLeft ∧
      p = min ((obs idx).liveOdds + steps.getD (idx - start) 0) (99/100) := by
  intro steps
  induction steps with
  | nil =>
      intro start idx p hm
      simp [tradeLoop] at hm
  | cons step rest ih =>
      intro start idx p hm
      rw [tradeLoop] at hm
      by_cases hc : (obs start).timeLeft < cutoff
      · rw [if_pos hc] at hm
        simp at hm
      · rw [if_neg hc] at hm
        by_cases hf : (obs start).fillSuccess = true
        · simp only [hf, if_true, List.mem_singleton,
            TradeEv.attempt.injEq] at hm
          obtain ⟨hidx, hp⟩ := hm
          subst hidx
          refine ⟨le_refl _, by simp, le_of_not_lt hc, ?_⟩
          simp [hp]
        · simp only [hf, Bool.false_eq_true, if_false, List.mem_cons,
            List.mem_append, TradeEv.attempt.injEq] at hm
          rcases hm with hm | hm | hm
          · obtain ⟨hidx, hp⟩ := hm
            subst hidx
            refine ⟨le_refl _, by simp, le_of_not_lt hc, ?_⟩
            simp [hp]
          · by_cases hr : rest.isEmpty <;> simp [hr] at hm
          · obtain ⟨h1, h2, h3, h4⟩ := ih (start + 1) idx p hm
            refine ⟨le_trans (Nat.le_succ _) h1,
              by simp only [List.length_cons]; omega, h3, ?_⟩
            have hd : idx - start = (idx - (start + 1)) + 1 := by omega
            rw [hd]
            simpa using h4

theorem tradeLoop_mem_wait (cutoff : ℕ) (obs : ℕ → BuyAttemptObs) :
    ∀ (steps : List ℚ) (start ms : ℕ),
      TradeEv.wait ms ∈ (tradeLoop cutoff obs start steps).1 →
      ms = RETRY_DELAY := by
  intro steps
  induction steps with
  | nil =>
      intro start ms hm
      simp [tradeLoop] at hm
  | cons step rest ih =>
      intro start ms hm
      rw [tradeLoop] at hm
      by_cases hc : (obs start).timeLeft < cutoff
      · rw [if_pos hc] at hm
        simp at hm
      · rw [if_neg hc] at hm
        by_cases hf : (obs start).fillSuccess = true
        · simp only [hf, if_true, List.mem_singleton] at hm
          cases hm
        · simp only [hf, Bool.false_eq_true, if_false, List.mem_cons,
            List.mem_append] at hm
          rcases hm with hm | hm | hm
          · cases hm
          · by_cases hr : rest.isEmpty <;> simp [hr] at hm
            cases hm
            rfl
          · exact ih (start + 1) ms hm

theorem tradeLoop_attempt_count (cutoff : ℕ) (obs : ℕ → BuyAttemptObs) :
    ∀ (steps : List ℚ) (start : ℕ),
      (tradeLoop cutoff obs start steps).1.countP TradeEv.isAttempt ≤
        steps.length := by
  intro steps
  induction steps with
  | nil =>
      intro start
      simp [tradeLoop]
  | cons step rest ih =>
      intro start
      rw [tradeLoop]
      by_cases hc : (obs start).timeLeft < cutoff
      · rw [if_pos hc]
        simp
      · rw [if_neg hc]
        by_cases hf : (obs start).fillSuccess = true
        · simp [hf, List.countP_cons, TradeEv.isAttempt]
        · simp only [hf, Bool.false_eq_true, if_false]
          have hw : List.countP TradeEv.isAttempt
              (if rest = [] then ([] : List TradeEv)
                else [TradeEv.wait RETRY_DELAY]) = 0 := by
            by_cases hr : rest = [] <;> simp [hr, TradeEv.isAttempt]
          have hih := ih (start + 1)
          simp [List.countP_cons, List.countP_append, TradeEv.isAttempt]
          omega

/-- Claim C7: executeTrade retries at most 5 times; the retry cutoff is
the time remaining at the decision (the checkpoint time) minus a fixed
17-second buffer, floored at 3 seconds; an attempt is made only when
the live time remaining at attempt time is at or above the cutoff; each
attempt bids min(live price at attempt time + slippage step, 0.99) with
the schedule 3%, 6%, 10%, 14%, 14%; and every inter-attempt delay is
exactly 1500 ms. -/
theorem executeTrade_retry_discipline (secsAtEntry : ℕ)
    (obs : ℕ → BuyAttemptObs) :
    (3 ≤ retryCutoff secsAtEntry ∧
      (20 ≤ secsAtEntry →
        (retryCutoff secsAtEntry : ℤ) = (secsAtEntry : ℤ) - 17)) ∧
    (executeTrade secsAtEntry obs).1.countP TradeEv.isAttempt ≤ 5 ∧
    SLIPPAGE_STEPS = [3/100, 6/100, 10/100, 14/100, 14/100] ∧
    (∀ idx p, TradeEv.attempt idx p ∈ (executeTrade secsAtEntry obs).1 →
      idx < 5 ∧ retryCutoff secsAtEntry ≤ (obs idx).timeLeft ∧
      p = min ((obs idx).liveOdds + SLIPPAGE_STEPS.getD idx 0) (99/100)) ∧
    (∀ ms, TradeEv.wait ms ∈ (executeTrade secsAtEntry obs).1 → ms = 1500) := by
  refine ⟨⟨le_max_right _ _, ?_⟩, ?_, rfl, ?_, ?_⟩
  · intro h
    rw [retryCutoff, max_eq_left (by omega)]
    omega
  · have := tradeLoop_attempt_count (retryCutoff secsAtEntry) obs SLIPPAGE_STEPS 0
    simpa [executeTrade, SLIPPAGE_STEPS] using this
  · intro idx p hm
    obtain ⟨h1, h2, h3, h4⟩ :=
      tradeLoop_mem_attempt (retryCutoff secsAtEntry) obs SLIPPAGE_STEPS 0 idx p hm
    refine ⟨?_, h3, ?_⟩
    · simpa [SLIPPAGE_STEPS] using h2
    · simpa using h4
  · intro ms hm
    exact tradeLoop_mem_wait (retryCutoff secsAtEntry) obs SLIPPAGE_STEPS 0 ms hm

/-- Witness for executeTrade_retry_discipline: entry decided at T-30
(cutoff 13), first attempt observed 25 s remaining, live odds 0.50,
order filled at 0.53 = 0.50 + the first slippage step. -/
theorem executeTrade_retry_discipline_witness :
    TradeEv.attempt 0 (53/100) ∈
      (executeTrade 30 (fun _ => ⟨25, 1/2, true⟩)).1 ∧
    (0 < 5 ∧ retryCutoff 30 ≤ (25 : ℕ) ∧
      (53/100 : ℚ) = min ((1/2 : ℚ) + SLIPPAGE_STEPS.getD 0 0) (99/100)) := by
  have hm : TradeEv.attempt 0 (53/100) ∈
      (executeTrade 30 (fun _ => ⟨25, 1/2, true⟩)).1 := by
    rw [executeTrade, SLIPPAGE_STEPS, tradeLoop]
    norm_num [retryCutoff]
  exact ⟨hm, (executeTrade_retry_discipline 30 (fun _ => ⟨25, 1/2, true⟩)).2.2.2.1
    0 (53/100) hm⟩

-- ── C2 helpers: checkSnipe step facts ───────────────────────────────

theorem checkSnipe_idx_cases (st : SnipeState) (o : SnipeObs) :
    ((checkSnipe st o).1.nextCheckpointIdx = st.nextCheckpointIdx ∧
      ∀ i f, (checkSnipe st o).2 ≠ some (.consumed i f)) ∨
    ((checkSnipe st o).1.nextCheckpointIdx = st.nextCheckpointIdx + 1 ∧
      ∃ f, (checkSnipe st o).2 = some (.consumed st.nextCheckpointIdx f)) := by
  by_cases hg : (!o.marketPresent || st.hasBet || st.isExecutingTrade) = true
  · rw [checkSnipe, if_pos hg]
    exact Or.inl ⟨by simp, fun i f => by simp⟩
  · rcases hu : o.upOdds with _ | up
    · rw [checkSnipe, if_neg hg]
      simp only [hu]
      exact Or.inl ⟨by simp, fun i f => by simp⟩
    · rcases hd : o.downOdds with _ | down
      · rw [checkSnipe, if_neg hg]
        simp only [hu, hd]
        exact Or.inl ⟨by simp, fun i f => by simp⟩
      · by_cases hw : o.secsLeft ≤ 3 ∧ 1 ≤ o.secsLeft
        · rcases hlr : checkLastResort st o with _ | d <;>
            · rw [checkSnipe, if_neg hg]
              simp only [hu, hd]
              rw [if_pos hw]
              simp only [hlr]
              exact Or.inl ⟨by simp, fun i f => by simp⟩
        · rcases hcp : CHECKPOINTS[st.nextCheckpointIdx]? with _ | cp
          · rw [checkSnipe, if_neg hg]
            simp only [hu, hd]
            rw [if_neg hw]
            simp only [hcp]
            exact Or.inl ⟨by simp, fun i f => by simp⟩
          · by_cases ht : cp.atSecs < o.secsLeft ∨ o.secsLeft < 3
            · rw [checkSnipe, if_neg hg]
              simp only [hu, hd]
              rw [if_neg hw]
              simp only [hcp]
              rw [if_pos ht]
              exact Or.inl ⟨by simp, fun i f => by simp⟩
            · by_cases hbar : max up down < cp.minOdds
              · rw [checkSnipe, if_neg hg]
                simp only [hu, hd]
                rw [if_neg hw]
                simp only [hcp]
                rw [if_neg ht, if_pos hbar]
                exact Or.inr ⟨by simp, none, by simp⟩
              · by_cases hskip :
                  btcConfirmSkip o.btcOpenPrice o.btcCurrentPrice = true
                · rw [checkSnipe, if_neg hg]
                  simp only [hu, hd]
                  rw [if_neg hw]
                  simp only [hcp]
                  rw [if_neg ht, if_neg hbar, if_pos hskip]
                  exact Or.inr ⟨by simp, none, by simp⟩
                · rw [checkSnipe, if_neg hg]
                  simp only [hu, hd]
                  rw [if_neg hw]
                  simp only [hcp]
                  rw [if_neg ht, if_neg hbar, if_neg hskip]
                  exact Or.inr ⟨by simp, some (if down ≤ up then Dir.up else Dir.down), by simp⟩

theorem checkSnipe_consumed_time (st : SnipeState) (o : SnipeObs)
    (i : ℕ) (f : Option Dir)
    (h : (checkSnipe st o).2 = some (.consumed i f)) :
    ∃ cp, CHECKPOINTS[st.nextCheckpointIdx]? = some cp ∧
      3 < o.secsLeft ∧ o.secsLeft ≤ cp.atSecs := by
  by_cases hg : (!o.marketPresent || st.hasBet || st.isExecutingTrade) = true
  · rw [checkSnipe, if_pos hg] at h
    exact absurd h (by simp)
  · rcases hu : o.upOdds with _ | up
    · rw [checkSnipe, if_neg hg] at h
      simp only [hu] at h
      exact absurd h (by simp)
    · rcases hd : o.downOdds with _ | down
      · rw [checkSnipe, if_neg hg] at h
        simp only [hu, hd] at h
        exact absurd h (by simp)
      · by_cases hw : o.secsLeft ≤ 3 ∧ 1 ≤ o.secsLeft
        · rcases hlr : checkLastResort st o with _ | d <;>
            · rw [checkSnipe, if_neg hg] at h
              simp only [hu, hd] at h
              rw [if_pos hw] at h
              simp only [hlr] at h
              exact absurd h (by simp)
        · rcases hcp : CHECKPOINTS[st.nextCheckpointIdx]? with _ | cp
          · rw [checkSnipe, if_neg hg] at h
            simp only [hu, hd] at h
            rw [if_neg hw] at h
            simp only [hcp] at h
            exact absurd h (by simp)
          · by_cases ht : cp.atSecs < o.secsLeft ∨ o.secsLeft < 3
            · rw [checkSnipe, if_neg hg] at h
              simp only [hu, hd] at h
              rw [if_neg hw] at h
              simp only [hcp] at h
              rw [if_pos ht] at h
              exact absurd h (by simp)
            · exact ⟨cp, rfl, by omega, by omega⟩

theorem checkSnipe_consumed_conds (st : SnipeState) (o : SnipeObs)
    (i : ℕ) (f : Option Dir)
    (h : (checkSnipe st o).2 = some (.consumed i f)) :
    i = st.nextCheckpointIdx ∧
    (checkSnipe st o).1.nextCheckpointIdx = i + 1 ∧
    ∃ cp, CHECKPOINTS[i]? = some cp ∧ 3 < o.secsLeft ∧ o.secsLeft ≤ cp.atSecs := by
  rcases checkSnipe_idx_cases st o with ⟨_, hnone⟩ | ⟨hidx, f2, hev⟩
  · exact absurd h (hnone i f)
  · have hi : i = st.nextCheckpointIdx := by
      rw [hev] at h
      simp only [Option.some.injEq, SnipeEvent.consumed.injEq] at h
      exact h.1.symm
    subst hi
    obtain ⟨cp, hcp, h3, hle⟩ := checkSnipe_consumed_time st o _ f h
    exact ⟨rfl, hidx, cp, hcp, h3, hle⟩

theorem checkSnipe_consumes_when_reached (st : SnipeState) (o : SnipeObs)
    (up down : ℚ) (cp : Checkpoint)
    (hm : o.marketPresent = true) (hb : st.hasBet = false)
    (he : st.isExecutingTrade = false)
    (hu : o.upOdds = some up) (hd : o.downOdds = some down)
    (hcp : CHECKPOINTS[st.nextCheckpointIdx]? = some cp)
    (h3 : 3 < o.secsLeft) (hat : o.secsLeft ≤ cp.atSecs) :
    ∃ f, (checkSnipe st o).2 = some (.consumed st.nextCheckpointIdx f) ∧
      (checkSnipe st o).1.nextCheckpointIdx = st.nextCheckpointIdx + 1 := by
  rw [checkSnipe]
  have hg : ¬ ((!o.marketPresent || st.hasBet || st.isExecutingTrade) = true) := by
    simp [hm, hb, he]
  rw [if_neg hg]
  simp only [hu, hd]
  have ht : ¬ (o.secsLeft ≤ 3 ∧ 1 ≤ o.secsLeft) := by omega
  rw [if_neg ht]
  simp only [hcp]
  have ht2 : ¬ (cp.atSecs < o.secsLeft ∨ o.secsLeft < 3) := by omega
  rw [if_neg ht2]
  by_cases hbar : max up down < cp.minOdds
  · rw [if_pos hbar]
    exact ⟨none, rfl, rfl⟩
  · rw [if_neg hbar]
    by_cases hskip : btcConfirmSkip o.btcOpenPrice o.btcCurrentPrice = true
    · rw [if_pos hskip]
      exact ⟨none, rfl, rfl⟩
    · rw [if_neg hskip]
      exact ⟨some (if down ≤ up then Dir.up else Dir.down), rfl, rfl⟩

theorem consumedIdxs_toList_nil (e : Option SnipeEvent)
    (h : ∀ i f, e ≠ some (.consumed i f)) : consumedIdxs e.toList = [] := by
  rcases e with _ | ev
  · rfl
  · cases ev with
    | consumed i f => exact absurd rfl (h i f)
    | lastResort d => rfl

theorem consumedIdxs_append (a b : List SnipeEvent) :
    consumedIdxs (a ++ b) = consumedIdxs a ++ consumedIdxs b :=
  List.filterMap_append a b _

theorem runSnipe_consumed_props (os : List SnipeObs) :
    ∀ st : SnipeState,
      (∀ i ∈ consumedIdxs (runSnipe st os).2, st.nextCheckpointIdx ≤ i) ∧
      List.Sorted (· < ·) (consumedIdxs (runSnipe st os).2) ∧
      st.nextCheckpointIdx ≤ (runSnipe st os).1.nextCheckpointIdx := by
  induction os with
  | nil =>
      intro st
      simp [runSnipe, consumedIdxs]
  | cons o os ih =>
      intro st
      obtain ⟨ihlb, ihsort, ihmono⟩ := ih (checkSnipe st o).1
      rcases checkSnipe_idx_cases st o with ⟨hidx, hnone⟩ | ⟨hidx, f, hev⟩
      · have hnil : consumedIdxs (checkSnipe st o).2.toList = [] :=
          consumedIdxs_toList_nil _ hnone
        simp only [runSnipe, consumedIdxs_append, hnil, List.nil_append]
        rw [hidx] at ihlb ihmono
        exact ⟨ihlb, ihsort, ihmono⟩
      · have hl : consumedIdxs (checkSnipe st o).2.toList =
            [st.nextCheckpointIdx] := by
          rw [hev]
          rfl
        simp only [runSnipe, consumedIdxs_append, hl, List.cons_append,
          List.nil_append]
        refine ⟨?_, ?_, ?_⟩
        · intro i hi
          rcases List.mem_cons.mp hi with hi | hi
          · omega
          · have := ihlb i hi
            omega
        · rw [List.sorted_cons]
          refine ⟨?_, ihsort⟩
          intro b hb
          have := ihlb b hb
          omega
        · omega

-- ── C2: the checkpoint ladder invariants ────────────────────────────

/-- Claim C2: the ladder's time thresholds are 30, 20, 10 —
non-increasing and never below 3; over any sequence of ticks the
consumed checkpoint indices are strictly increasing (each checkpoint
consumed at most once, in order); consumption happens only at or below
the checkpoint's time threshold and never below 3 seconds remaining;
and when a tick reaches an unconsumed checkpoint in that time range
with the guards clear, the checkpoint is consumed whether or not the
minimum-odds bar or the $10 BTC confirmation filter is met. -/
theorem checkpoint_ladder_invariant :
    (CHECKPOINTS.map Checkpoint.atSecs = [30, 20, 10] ∧
      List.Chain' (fun a b => b ≤ a) (CHECKPOINTS.map Checkpoint.atSecs) ∧
      ∀ cp ∈ CHECKPOINTS, 3 ≤ cp.atSecs) ∧
    (∀ (st : SnipeState) (os : List SnipeObs),
      List.Sorted (· < ·) (consumedIdxs (runSnipe st os).2)) ∧
    (∀ (st : SnipeState) (o : SnipeObs) (i : ℕ) (f : Option Dir),
      (checkSnipe st o).2 = some (.consumed i f) →
      i = st.nextCheckpointIdx ∧
      (checkSnipe st o).1.nextCheckpointIdx = i + 1 ∧
      ∃ cp, CHECKPOINTS[i]? = some cp ∧
        3 ≤ o.secsLeft ∧ o.secsLeft ≤ cp.atSecs) ∧
    (∀ (st : SnipeState) (o : SnipeObs) (up down : ℚ) (cp : Checkpoint),
      o.marketPresent = true → st.hasBet = false → st.isExecutingTrade = false →
      o.upOdds = some up → o.downOdds = some down →
      CHECKPOINTS[st.nextCheckpointIdx]? = some cp →
      3 < o.secsLeft → o.secsLeft ≤ cp.atSecs →
      ∃ f, (checkSnipe st o).2 = some (.consumed st.nextCheckpointIdx f)) := by
  refine ⟨⟨rfl, ?_, by decide⟩, ?_, ?_, ?_⟩
  · rw [show CHECKPOINTS.map Checkpoint.atSecs = [30, 20, 10] from rfl]
    norm_num [List.chain'_cons]
  · intro st os
    exact (runSnipe_consumed_props os st).2.1
  · intro st o i f h
    obtain ⟨hi, hidx, cp, hcp, h3, hle⟩ := checkSnipe_consumed_conds st o i f h
    exact ⟨hi, hidx, cp, hcp, le_of_lt h3, hle⟩
  · intro st o up down cp hm hb he hu hd hcp h3 hat
    obtain ⟨f, hf, _⟩ :=
      checkSnipe_consumes_when_reached st o up down cp hm hb he hu hd hcp h3 hat
    exact ⟨f, hf⟩

/-- Witness for checkpoint_ladder_invariant: at T-25 with the first
checkpoint (T-30, 90%) unconsumed and the leader at only 50% — below
the bar — the checkpoint is consumed anyway, and a consumption event on
a concrete tick satisfies the time bounds. -/
theorem checkpoint_ladder_invariant_witness :
    ((⟨true, 25, some (1/2), some (1/2), none, none, []⟩ :
        SnipeObs).marketPresent = true ∧
      (⟨false, false, 0⟩ : SnipeState).hasBet = false ∧
      (⟨false, false, 0⟩ : SnipeState).isExecutingTrade = false ∧
      CHECKPOINTS[(0 : ℕ)]? = some ⟨30, 9/10⟩ ∧
      (3 : ℕ) < 25 ∧ (25 : ℕ) ≤ (30 : ℕ)) ∧
    (∃ f, (checkSnipe ⟨false, false, 0⟩
        ⟨true, 25, some (1/2), some (1/2), none, none, []⟩).2 =
      some (.consumed 0 f)) := by
  refine ⟨⟨rfl, rfl, rfl, ?_, by omega, by omega⟩, ?_⟩
  · rfl
  · exact checkpoint_ladder_invariant.2.2.2
      ⟨false, false, 0⟩ ⟨true, 25, some (1/2), some (1/2), none, none, []⟩
      (1/2) (1/2) ⟨30, 9/10⟩ rfl rfl rfl rfl rfl rfl (by decide) (by decide)

-- ── C4 helpers: last-resort characterization ────────────────────────

theorem checkLastResort_eq_some_iff (st : SnipeState) (o : SnipeObs) (d : Dir) :
    checkLastResort st o = some d ↔
      (o.marketPresent = true ∧ st.hasBet = false ∧ st.isExecutingTrade = false ∧
        (∃ u, o.upOdds = some u) ∧ (∃ v, o.downOdds = some v) ∧
        truthy o.btcOpenPrice = true ∧ truthy o.btcCurrentPrice = true ∧
        1 ≤ o.secsLeft ∧ o.secsLeft ≤ 3 ∧
        (lastResortSignalA o = some d ∨
          (lastResortSignalA o = none ∧ lastResortSignalB o = some d))) := by
  constructor
  · intro h
    by_cases hg : (!o.marketPresent || st.hasBet || st.isExecutingTrade) = true
    · rw [checkLastResort, if_pos hg] at h
      exact absurd h (by simp)
    · have hmp : o.marketPresent = true := by
        cases hx : o.marketPresent
        · exact absurd (by simp [hx] :
            (!o.marketPresent || st.hasBet || st.isExecutingTrade) = true) hg
        · rfl
      have hhb : st.hasBet = false := by
        cases hx : st.hasBet
        · rfl
        · exact absurd (by simp [hx] :
            (!o.marketPresent || st.hasBet || st.isExecutingTrade) = true) hg
      have hhe : st.isExecutingTrade = false := by
        cases hx : st.isExecutingTrade
        · rfl
        · exact absurd (by simp [hx] :
            (!o.marketPresent || st.hasBet || st.isExecutingTrade) = true) hg
      rcases hu : o.upOdds with _ | u
      · rw [checkLastResort, if_neg hg] at h
        simp only [hu] at h
        exact absurd h (by simp)
      · rcases hd : o.downOdds with _ | v
        · rw [checkLastResort, if_neg hg] at h
          simp only [hu, hd] at h
          exact absurd h (by simp)
        · rw [checkLastResort, if_neg hg] at h
          simp only [hu, hd] at h
          by_cases hbtc : (truthy o.btcOpenPrice && truthy o.btcCurrentPrice) = true
          · rw [if_neg (by simp [hbtc])] at h
            by_cases hwin : 3 < o.secsLeft ∨ o.secsLeft < 1
            · rw [if_pos hwin] at h
              exact absurd h (by simp)
            · rw [if_neg hwin] at h
              push_neg at hwin
              obtain ⟨hbo, hbc⟩ := Bool.and_eq_true_iff.mp hbtc
              refine ⟨hmp, hhb, hhe, ⟨u, rfl⟩, ⟨v, rfl⟩, hbo, hbc,
                by omega, by omega, ?_⟩
              rcases hA : lastResortSignalA o with _ | d0
              · rw [hA] at h
                exact Or.inr ⟨rfl, h⟩
              · rw [hA] at h
                simp only [Option.some.injEq] at h
                subst h
                exact Or.inl rfl
          · rw [if_pos (by simp_all)] at h
            exact absurd h (by simp)
  · rintro ⟨hm, hb, he, ⟨u, hu⟩, ⟨v, hd⟩, hbo, hbc, h1, h3, hsig⟩
    have hg : ¬ ((!o.marketPresent || st.hasBet || st.isExecutingTrade) = true) := by
      simp [hm, hb, he]
    rw [checkLastResort, if_neg hg]
    simp only [hu, hd]
    rw [if_neg (by simp [hbo, hbc])]
    rw [if_neg (by omega : ¬ (3 < o.secsLeft ∨ o.secsLeft < 1))]
    rcases hsig with hA | ⟨hA, hB⟩
    · rw [hA]
    · rw [hA]
      exact hB

theorem checkSnipe_lastResort_iff (st : SnipeState) (o : SnipeObs) (d : Dir) :
    (checkSnipe st o).2 = some (.lastResort d) ↔
      checkLastResort st o = some d := by
  constructor
  · intro h
    by_cases hg : (!o.marketPresent || st.hasBet || st.isExecutingTrade) = true
    · rw [checkSnipe, if_pos hg] at h
      exact absurd h (by simp)
    · rcases hu : o.upOdds with _ | up
      · rw [checkSnipe, if_neg hg] at h
        simp only [hu] at h
        exact absurd h (by simp)
      · rcases hd : o.downOdds with _ | down
        · rw [checkSnipe, if_neg hg] at h
          simp only [hu, hd] at h
          exact absurd h (by simp)
        · by_cases hw : o.secsLeft ≤ 3 ∧ 1 ≤ o.secsLeft
          · rcases hlr : checkLastResort st o with _ | d0
            · rw [checkSnipe, if_neg hg] at h
              simp only [hu, hd] at h
              rw [if_pos hw] at h
              simp only [hlr] at h
              exact absurd h (by simp)
            · rw [checkSnipe, if_neg hg] at h
              simp only [hu, hd] at h
              rw [if_pos hw] at h
              simp only [hlr] at h
              simp only [Option.some.injEq, SnipeEvent.lastResort.injEq] at h
              rw [h]
          · rcases hcp : CHECKPOINTS[st.nextCheckpointIdx]? with _ | cp
            · rw [checkSnipe, if_neg hg] at h
              simp only [hu, hd] at h
              rw [if_neg hw] at h
              simp only [hcp] at h
              exact absurd h (by simp)
            · by_cases ht : cp.atSecs < o.secsLeft ∨ o.secsLeft < 3
              · rw [checkSnipe, if_neg hg] at h
                simp only [hu, hd] at h
                rw [if_neg hw] at h
                simp only [hcp] at h
                rw [if_pos ht] at h
                exact absurd h (by simp)
              · rw [checkSnipe, if_neg hg] at h
                simp only [hu, hd] at h
                rw [if_neg hw] at h
                simp only [hcp] at h
                rw [if_neg ht] at h
                by_cases hbar : max up down < cp.minOdds
                · rw [if_pos hbar] at h
                  exact absurd h (by simp)
                · rw [if_neg hbar] at h
                  by_cases hskip :
                    btcConfirmSkip o.btcOpenPrice o.btcCurrentPrice = true
                  · rw [if_pos hskip] at h
                    exact absurd h (by simp)
                  · rw [if_neg hskip] at h
                    exact absurd h (by simp)
  · intro h
    obtain ⟨hm, hb, he, ⟨u, hu⟩, ⟨v, hd⟩, _, _, h1, h3, _⟩ :=
      (checkLastResort_eq_some_iff st o d).mp h
    have hg : ¬ ((!o.marketPresent || st.hasBet || st.isExecutingTrade) = true) := by
      simp [hm, hb, he]
    rw [checkSnipe, if_neg hg]
    simp only [hu, hd]
    rw [if_pos ⟨h3, h1⟩]
    simp only [h]

-- ── C4: the last-resort strategy ────────────────────────────────────

/-- Claim C4 counterexample: at T-2 with no checkpoint yet consumed
(nextCheckpointIdx = 0 of 3) and BTC $20 above the open price, the
last-resort path fires — so it is not restricted to windows whose
checkpoints were all consumed. -/
theorem lastResort_fires_with_unconsumed_checkpoints :
    (checkSnipe ⟨false, false, 0⟩
      ⟨true, 2, some (1/2), some (1/2), some 100000, some 100020, []⟩).2 =
      some (.lastResort .up) ∧
    (⟨false, false, 0⟩ : SnipeState).nextCheckpointIdx = 0 ∧
    0 < CHECKPOINTS.length := by
  refine ⟨?_, rfl, by decide⟩
  rw [checkSnipe_lastResort_iff, checkLastResort_eq_some_iff]
  refine ⟨rfl, rfl, rfl, ⟨1/2, rfl⟩, ⟨1/2, rfl⟩, ?_, ?_, by decide, by decide, ?_⟩
  · norm_num [truthy]
  · norm_num [truthy]
  · left
    rw [lastResortSignalA]
    norm_num

/-- Claim C4 (amended): the last-resort path fires on a tick exactly
when the market is present, no bet has been placed, no trade is in
flight, both odds and both BTC prices are known (truthy), the time
remaining is between 3 and 1 seconds — regardless of how many
checkpoints were consumed — and either signal A (reference price at
least $15 from the open, buying the side the move favors) or else
signal B (one side's probability rose at least 0.15 across the last 3
odds-history samples, buying the surging side) holds; there is no
confidence floor on the entry. -/
theorem lastResort_spec (st : SnipeState) (o : SnipeObs) (d : Dir) :
    (checkSnipe st o).2 = some (.lastResort d) ↔
      (o.marketPresent = true ∧ st.hasBet = false ∧ st.isExecutingTrade = false ∧
        (∃ u, o.upOdds = some u) ∧ (∃ v, o.downOdds = some v) ∧
        truthy o.btcOpenPrice = true ∧ truthy o.btcCurrentPrice = true ∧
        1 ≤ o.secsLeft ∧ o.secsLeft ≤ 3 ∧
        (lastResortSignalA o = some d ∨
          (lastResortSignalA o = none ∧ lastResortSignalB o = some d))) :=
  (checkSnipe_lastResort_iff st o d).trans (checkLastResort_eq_some_iff st o d)

-- ── C6 helpers: arbitrage-mode transition facts ─────────────────────

/-- The best ask the arb evaluator compares against for a side. -/
def askFor (i : ArbInput) : Dir → Option ℚ
  | .up => i.upBestAsk
  | .down => i.downBestAsk

/-- The model-implied probability for a side (output of
calculateImpliedProbability). -/
def impliedFor (i : ArbInput) : Dir → ℚ
  | .up => i.impliedUp
  | .down => i.impliedDown

/-- The position executeArbTrade appends on a fill for side d at ask
price ask with divergence div. -/
def arbNewPos (d : Dir) (ask div : ℚ) : ArbPos :=
  { direction := d,
    entryPrice := min (ask + ARB_SLIPPAGE) (99/100),
    targetPrice := min (min (ask + ARB_SLIPPAGE) (99/100) +
      div * ARB_PROFIT_CAPTURE) (99/100),
    stopPrice := max (min (ask + ARB_SLIPPAGE) (99/100) -
      ARB_STOP_LOSS_CENTS) (1/100),
    tokenAmount := ARB_BET_AMOUNT_USD / min (ask + ARB_SLIPPAGE) (99/100) }

theorem executeArbTrade_shape (s : ArbState) (d : Dir) (ask div : ℚ)
    (now : ℕ) (fill : Bool) :
    executeArbTrade s d ask div now fill =
      (if fill then
        { s with lastTradeTime := now,
                 tradesThisCycle := s.tradesThisCycle + 1,
                 positions := s.positions ++ [arbNewPos d ask div] }
      else { s with lastTradeTime := now }) := by
  cases fill <;> simp [executeArbTrade, arbNewPos]

theorem evaluateArbitrage_shape (s : ArbState) (i : ArbInput) :
    evaluateArbitrage s i = s ∨
    evaluateArbitrage s i = { s with lastTradeTime := i.now } ∨
    (s.positions.length < MAX_CONCURRENT_POSITIONS ∧
      s.tradesThisCycle < MAX_TRADES_PER_CYCLE ∧
      (ARB_COOLDOWN_MS : ℤ) ≤ (i.now : ℤ) - (s.lastTradeTime : ℤ) ∧
      ARB_MIN_SECS_LEFT ≤ i.secsLeft ∧ i.secsLeft ≤ 280 ∧
      ∃ d ask, askFor i d = some ask ∧
        DIVERGENCE_THRESHOLD < impliedFor i d - ask ∧
        s.positions.any (fun p => p.direction = d) = false ∧
        evaluateArbitrage s i =
          { s with lastTradeTime := i.now,
                   tradesThisCycle := s.tradesThisCycle + 1,
                   positions := s.positions ++
                     [arbNewPos d ask (impliedFor i d - ask)] }) := by
  by_cases hg1 : (!i.marketPresent || !(truthy i.btcOpenPrice) ||
      !(truthy i.binanceBtcMid)) = true
  · rw [evaluateArbitrage, if_pos hg1]
    exact Or.inl rfl
  · by_cases hg2 : i.upBestAsk = none ∧ i.downBestAsk = none
    · rw [evaluateArbitrage, if_neg hg1, if_pos hg2]
      exact Or.inl rfl
    · by_cases hg3 : s.isExecutingTrade = true
      · rw [evaluateArbitrage, if_neg hg1, if_neg hg2, if_pos hg3]
        exact Or.inl rfl
      · by_cases hg4 : MAX_CONCURRENT_POSITIONS ≤ s.positions.length
        · rw [evaluateArbitrage, if_neg hg1, if_neg hg2, if_neg hg3, if_pos hg4]
          exact Or.inl rfl
        · by_cases hg5 : MAX_TRADES_PER_CYCLE ≤ s.tradesThisCycle
          · rw [evaluateArbitrage, if_neg hg1, if_neg hg2, if_neg hg3,
              if_neg hg4, if_pos hg5]
            exact Or.inl rfl
          · by_cases hg6 : (i.now : ℤ) - (s.lastTradeTime : ℤ) <
                (ARB_COOLDOWN_MS : ℤ)
            · rw [evaluateArbitrage, if_neg hg1, if_neg hg2, if_neg hg3,
                if_neg hg4, if_neg hg5, if_pos hg6]
              exact Or.inl rfl
            · by_cases hg7 : i.secsLeft < ARB_MIN_SECS_LEFT ∨ 280 < i.secsLeft
              · rw [evaluateArbitrage, if_neg hg1, if_neg hg2, if_neg hg3,
                  if_neg hg4, if_neg hg5, if_neg hg6, if_pos hg7]
                exact Or.inl rfl
              · have hbase : ∀ r : ArbState, r = evaluateArbitrage s i →
                    r = arbTryDown s i ∨
                    (∃ ask, i.upBestAsk = some ask ∧
                      DIVERGENCE_THRESHOLD < i.impliedUp - ask ∧
                      s.positions.any (fun p => p.direction = Dir.up) = false ∧
                      r = executeArbTrade s Dir.up ask (i.impliedUp - ask)
                        i.now i.fillSuccess) := by
                  intro r hr
                  rw [evaluateArbitrage, if_neg hg1, if_neg hg2, if_neg hg3,
                    if_neg hg4, if_neg hg5, if_neg hg6, if_neg hg7] at hr
                  rcases hua : i.upBestAsk with _ | ask
                  · rw [hua] at hr
                    exact Or.inl hr
                  · rw [hua] at hr
                    have hr2 : r = if DIVERGENCE_THRESHOLD < i.impliedUp - ask ∧
                        ¬ s.positions.any (fun p => p.direction = Dir.up) then
                        executeArbTrade s Dir.up ask (i.impliedUp - ask)
                          i.now i.fillSuccess
                      else arbTryDown s i := hr
                    by_cases hcnd : DIVERGENCE_THRESHOLD < i.impliedUp - ask ∧
                        ¬ s.positions.any (fun p => p.direction = Dir.up)
                    · rw [if_pos hcnd] at hr2
                      exact Or.inr ⟨ask, rfl, hcnd.1,
                        by simpa using hcnd.2, hr2⟩
                    · rw [if_neg hcnd] at hr2
                      exact Or.inl hr2
                push_neg at hg4 hg5 hg6
                rcases hbase _ rfl with hdown | ⟨ask, hua, hdiv, hany, hup⟩
                · rw [arbTryDown] at hdown
                  rcases hda : i.downBestAsk with _ | ask
                  · rw [hda] at hdown
                    exact Or.inl hdown
                  · rw [hda] at hdown
                    have hdown2 : evaluateArbitrage s i =
                        if DIVERGENCE_THRESHOLD < i.impliedDown - ask ∧
                          ¬ s.positions.any (fun p => p.direction = Dir.down) then
                          executeArbTrade s Dir.down ask (i.impliedDown - ask)
                            i.now i.fillSuccess
                        else s := hdown
                    by_cases hcnd : DIVERGENCE_THRESHOLD < i.impliedDown - ask ∧
                        ¬ s.positions.any (fun p => p.direction = Dir.down)
                    · rw [if_pos hcnd, executeArbTrade_shape] at hdown2
                      cases hfill : i.fillSuccess
                      · rw [hfill] at hdown2
                        simp only [Bool.false_eq_true, if_false] at hdown2
                        exact Or.inr (Or.inl hdown2)
                      · rw [hfill] at hdown2
                        simp only [if_true] at hdown2
                        refine Or.inr (Or.inr ⟨hg4, hg5, by omega, by omega,
                          by omega, Dir.down, ask, hda, hcnd.1,
                          by simpa using hcnd.2, hdown2⟩)
                    · rw [if_neg hcnd] at hdown2
                      exact Or.inl hdown2
                · rw [executeArbTrade_shape] at hup
                  cases hfill : i.fillSuccess
                  · rw [hfill] at hup
                    simp only [Bool.false_eq_true, if_false] at hup
                    exact Or.inr (Or.inl hup)
                  · rw [hfill] at hup
                    simp only [if_true] at hup
                    refine Or.inr (Or.inr ⟨hg4, hg5, by omega, by omega,
                      by omega, Dir.up, ask, hua, hdiv, hany, hup⟩)

theorem arbInv_init : ArbInv arbInit := by
  refine ⟨?_, ?_, ?_, ?_⟩ <;> simp [arbInit, MAX_CONCURRENT_POSITIONS,
    MAX_TRADES_PER_CYCLE]

theorem evaluateArbitrage_inv (s : ArbState) (i : ArbInput)
    (h : ArbInv s) : ArbInv (evaluateArbitrage s i) := by
  rcases evaluateArbitrage_shape s i with heq | heq |
    ⟨hlen, htr, _, _, _, d, ask, _, _, hany, heq⟩
  · rw [heq]
    exact h
  · rw [heq]
    exact h
  · rw [heq]
    obtain ⟨h1, h2, h3, h4⟩ := h
    have hany2 : ∀ x ∈ s.positions, ¬ x.direction = d := by
      simpa using hany
    have hzero : s.positions.countP (fun p => p.direction = d) = 0 := by
      rw [List.countP_eq_zero]
      intro a ha
      simpa using hany2 a ha
    refine ⟨?_, ?_, ?_, ?_⟩
    · simp only [List.length_append, List.length_singleton]
      omega
    · rw [List.countP_append]
      cases d
      · rw [hzero]
        simp [arbNewPos]
      · have : List.countP (fun p => decide (p.direction = Dir.up))
            [arbNewPos Dir.down ask (impliedFor i Dir.down - ask)] = 0 := by
          simp [arbNewPos]
        omega
    · rw [List.countP_append]
      cases d
      · have : List.countP (fun p => decide (p.direction = Dir.down))
            [arbNewPos Dir.up ask (impliedFor i Dir.up - ask)] = 0 := by
          simp [arbNewPos]
        omega
      · rw [hzero]
        simp [arbNewPos]
    · simpa using htr

theorem executeExit_inv (s : ArbState) (idx : ℕ) (ok : Bool)
    (h : ArbInv s) : ArbInv (executeExit s idx ok) := by
  rw [executeExit]
  cases ok
  · simpa using h
  · simp only [if_true]
    obtain ⟨h1, h2, h3, h4⟩ := h
    have hs : List.Sublist (s.positions.eraseIdx idx) s.positions :=
      List.eraseIdx_sublist s.positions idx
    exact ⟨le_trans hs.length_le h1, le_trans (hs.countP_le _) h2,
      le_trans (hs.countP_le _) h3, h4⟩

theorem arbReachable_inv : ∀ s, ArbReachable s → ArbInv s := by
  intro s h
  induction h with
  | init => exact arbInv_init
  | eval i _ ih => exact evaluateArbitrage_inv _ i ih
  | exitStep idx ok _ ih => exact executeExit_inv _ idx ok ih
  | reset _ ih => exact arbInv_init

-- ── C6: divergence-arbitrage entry condition and safety limits ──────

/-- Claim C6: every state the arb engine can reach keeps at most
MAX_CONCURRENT_POSITIONS open positions, at most one open position per
side, and at most MAX_TRADES_PER_CYCLE entries per window; and whenever
an evaluateArbitrage call changes the position list, the prior state
was below the position and trade caps, at least ARB_COOLDOWN_MS had
passed since the previous trade, and the entered side's model-implied
probability exceeded its best ask by more than DIVERGENCE_THRESHOLD
with no position already open on that side. -/
theorem arb_entry_and_limits :
    (∀ s, ArbReachable s → ArbInv s) ∧
    (∀ (s : ArbState) (i : ArbInput),
      (evaluateArbitrage s i).positions ≠ s.positions →
      s.positions.length < MAX_CONCURRENT_POSITIONS ∧
      s.tradesThisCycle < MAX_TRADES_PER_CYCLE ∧
      (ARB_COOLDOWN_MS : ℤ) ≤ (i.now : ℤ) - (s.lastTradeTime : ℤ) ∧
      ∃ d ask, askFor i d = some ask ∧
        DIVERGENCE_THRESHOLD < impliedFor i d - ask ∧
        s.positions.any (fun p => p.direction = d) = false ∧
        (evaluateArbitrage s i).positions =
          s.positions ++ [arbNewPos d ask (impliedFor i d - ask)]) := by
  refine ⟨arbReachable_inv, ?_⟩
  intro s i hne
  rcases evaluateArbitrage_shape s i with heq | heq |
    ⟨hlen, htr, hcool, _, _, d, ask, hask, hdiv, hany, heq⟩
  · rw [heq] at hne
    exact absurd rfl hne
  · rw [heq] at hne
    exact absurd rfl hne
  · exact ⟨hlen, htr, hcool, d, ask, hask, hdiv, hany, by rw [heq]⟩

/-- Witness for arb_entry_and_limits: the initial state is reachable
and satisfies the invariant; from it, an input with implied UP
probability 0.70 against an ask of 0.50 (divergence 0.20 > 0.08) and a
cooldown long expired produces an entry, and the theorem's conclusions
hold there. -/
theorem arb_entry_and_limits_witness :
    ArbInv arbInit ∧
    ((evaluateArbitrage arbInit
        ⟨true, some 1, some 1, some (1/2), none, 7/10, 3/10, 5000, 100,
          true⟩).positions ≠ arbInit.positions ∧
      arbInit.positions.length < MAX_CONCURRENT_POSITIONS ∧
      arbInit.tradesThisCycle < MAX_TRADES_PER_CYCLE) := by
  have hne : (evaluateArbitrage arbInit
      ⟨true, some 1, some 1, some (1/2), none, 7/10, 3/10, 5000, 100,
        true⟩).positions ≠ arbInit.positions := by
    rw [evaluateArbitrage]
    norm_num [arbInit, truthy, MAX_CONCURRENT_POSITIONS, MAX_TRADES_PER_CYCLE,
      ARB_COOLDOWN_MS, ARB_MIN_SECS_LEFT, DIVERGENCE_THRESHOLD,
      executeArbTrade, (by simp : ¬ (some ((1:ℚ)/2) = none))]
  have hres := arb_entry_and_limits.2 arbInit
    ⟨true, some 1, some 1, some (1/2), none, 7/10, 3/10, 5000, 100, true⟩ hne
  exact ⟨arb_entry_and_limits.1 arbInit ArbReachable.init,
    hne, hres.1, hres.2.1⟩

-- ── C8: time-steepened implied probability ──────────────────────────

/-- Claim C8 counterexample: calculateImpliedProbability floors the
time remaining at 10 seconds (Math.max(secsLeft, 10)), so for the same
positive deviation the implied probability at 5 seconds remaining
equals — is not higher than — the one at 8 seconds remaining. -/
theorem impliedProbability_floored_below_ten :
    (calculateImpliedProbability (1003/10) 100 5).1 =
      (calculateImpliedProbability (1003/10) 100 8).1 ∧
    ¬ ((calculateImpliedProbability (1003/10) 100 8).1 <
        (calculateImpliedProbability (1003/10) 100 5).1) := by
  have heq : (calculateImpliedProbability (1003/10) 100 5).1 =
      (calculateImpliedProbability (1003/10) 100 8).1 := by
    rw [calculateImpliedProbability, calculateImpliedProbability,
      if_neg (by norm_num), if_neg (by norm_num)]
    have h5 : max (5:ℝ) 10 = 10 := by norm_num
    have h8 : max (8:ℝ) 10 = 10 := by norm_num
    simp only [h5, h8]
  refine ⟨heq, ?_⟩
  rw [heq]
  exact lt_irrefl _

/-- Claim C8 (amended): for a fixed positive percentage deviation of
the reference price above the open price, the implied up-probability of
calculateImpliedProbability is strictly higher at smaller time
remaining as long as both times are at least the 10-second floor of
Math.max(secsLeft, 10); in particular the implied probability of a 0.3%
upward deviation at 250 s remaining is strictly lower than at 20 s
remaining. -/
theorem impliedProbability_time_steepening (b o s1 s2 : ℝ)
    (ho : 0 < o) (hb : o < b) (h10 : 10 ≤ s2) (hlt : s2 < s1) :
    (calculateImpliedProbability b o s1).1 <
      (calculateImpliedProbability b o s2).1 := by
  have hbne : ¬ (b = 0 ∨ o = 0) := by
    push_neg
    exact ⟨ne_of_gt (lt_trans ho hb), ne_of_gt ho⟩
  rw [calculateImpliedProbability, calculateImpliedProbability,
    if_neg hbne, if_neg hbne]
  simp only
  rw [max_eq_left (le_trans h10 (le_of_lt hlt)), max_eq_left h10]
  have hppos : 0 < (b - o) / o * 100 := by
    apply mul_pos _ (by norm_num)
    exact div_pos (by linarith) ho
  have hK : (0:ℝ) < MODEL_K_BASE := by
    rw [show MODEL_K_BASE = 4.76 from rfl]
    norm_num
  have hs2pos : (0:ℝ) < s2 := by linarith
  have hs1pos : (0:ℝ) < s1 := by linarith
  have hdiv : 300 / s1 < 300 / s2 :=
    div_lt_div_of_pos_left (by norm_num) hs2pos hlt
  have hsqrt : Real.sqrt (300 / s1) < Real.sqrt (300 / s2) :=
    Real.sqrt_lt_sqrt (le_of_lt (div_pos (by norm_num) hs1pos)) hdiv
  have hk : MODEL_K_BASE * Real.sqrt (300 / s1) <
      MODEL_K_BASE * Real.sqrt (300 / s2) :=
    mul_lt_mul_of_pos_left hsqrt hK
  have hexp : Real.exp (-(MODEL_K_BASE * Real.sqrt (300 / s2)) *
        ((b - o) / o * 100)) <
      Real.exp (-(MODEL_K_BASE * Real.sqrt (300 / s1)) *
        ((b - o) / o * 100)) := by
    apply Real.exp_lt_exp.mpr
    nlinarith
  apply one_div_lt_one_div_of_lt
  · positivity
  · linarith

/-- Witness for impliedProbability_time_steepening: Scenario E, a 0.3%
upward deviation, 250 s versus 20 s remaining. -/
theorem impliedProbability_time_steepening_witness :
    (0:ℝ) < 100 ∧ (100:ℝ) < 1003/10 ∧ (10:ℝ) ≤ 20 ∧ (20:ℝ) < 250 ∧
    (calculateImpliedProbability (1003/10) 100 250).1 <
      (calculateImpliedProbability (1003/10) 100 20).1 :=
  ⟨by norm_num, by norm_num, by norm_num, by norm_num,
    impliedProbability_time_steepening (1003/10) 100 250 20
      (by norm_num) (by norm_num) (by norm_num) (by norm_num)⟩

end Sniper
